import Mathlib

/-!
Verification development for the cudf ordered-search primitives declared in
cpp/include/cudf/search.hpp: lower_bound, upper_bound and contains over a
sorted, possibly multi-column table.  The header under src/ holds only the
declarations and their doc comments; the bodies (row comparator, binary
search kernel, validation glue) are modelled from the specification.
-/

namespace cudf

/-- Modelled from the spec: the three-way result of the Row Comparator
(section 4.1), LESS / EQUAL / GREATER. -/
inductive weak_ordering where
  | LESS
  | EQUAL
  | GREATER
deriving DecidableEq, Repr

/-- Flip LESS and GREATER, used when a column is DESCENDING. -/
def weak_ordering.flip : weak_ordering → weak_ordering
  | .LESS => .GREATER
  | .EQUAL => .EQUAL
  | .GREATER => .LESS

/-- Per-column sort direction, the cudf order enum from the header signature. -/
inductive order where
  | ASCENDING
  | DESCENDING
deriving DecidableEq, Repr

/-- Per-column null placement, the cudf null_order enum from the header
signature, with the spec's names NULLS_FIRST / NULLS_LAST. -/
inductive null_order where
  | NULLS_FIRST
  | NULLS_LAST
deriving DecidableEq, Repr

/-- Element type tag of a column or scalar; mismatching tags are a
type-mismatch error.  Values of every element type are represented below by
an integer encoding that preserves the type's native order (the fractional
literals of the header's FLOAT64 example column appear in units of one
tenth, an order-preserving encoding). -/
inductive dtype where
  | INT32
  | INT64
  | FLOAT64
  | BOOL8
deriving DecidableEq, Repr

/-- The fixed index element type of bound-search results: cudf's size_type
is a 32-bit signed integer type. -/
def size_type : dtype := dtype.INT32

/-- Modelled from the spec: one element of a column, none denoting null. -/
abbrev cell := Option Int

/-- Three-way comparison of two non-null values in their native order. -/
def compareVal (x y : Int) : weak_ordering :=
  if x < y then .LESS else if y < x then .GREATER else .EQUAL

/-- Modelled from the spec (section 4.1, steps 1-3): compare one column's
two elements.  Two nulls are EQUAL; exactly one null resolves by the
column's null precedence (null before all non-nulls under NULLS_FIRST,
after all non-nulls under NULLS_LAST); two non-null values compare in the
native order, flipped when the column is DESCENDING. -/
def compareCell (o : order) (np : null_order) : cell → cell → weak_ordering
  | none, none => .EQUAL
  | none, some _ =>
      match np with
      | .NULLS_FIRST => .LESS
      | .NULLS_LAST => .GREATER
  | some _, none =>
      match np with
      | .NULLS_FIRST => .GREATER
      | .NULLS_LAST => .LESS
  | some x, some y =>
      match o with
      | .ASCENDING => compareVal x y
      | .DESCENDING => (compareVal x y).flip

/-- Modelled from the spec (section 4.1): the Row Comparator, lexicographic
left to right across the columns; an EQUAL column consults the next column,
any other result short-circuits; if every column compares EQUAL (or the
lists end) the overall result is EQUAL. -/
def compare_rows : List order → List null_order → List cell → List cell → weak_ordering
  | o :: os, n :: ns, x :: xs, y :: ys =>
      match compareCell o n x y with
      | .EQUAL => compare_rows os ns xs ys
      | r => r
  | _, _, _, _ => .EQUAL

/-- A column: an element type tag and the elements (none denoting null). -/
structure column_view where
  type : dtype
  cells : List cell
deriving DecidableEq, Repr

/-- A table: an ordered sequence of columns. -/
abbrev table_view := List column_view

/-- Number of rows of a table (row count of its first column; a table view
has all columns of one length). -/
def num_rows (t : table_view) : Nat :=
  match t with
  | [] => 0
  | c :: _ => c.cells.length

/-- Row i of a table, one cell per column. -/
def row_at (t : table_view) (i : Nat) : List cell :=
  t.map fun c => c.cells.getD i none

/-- All rows of a table, in index order. -/
def rows_of (t : table_view) : List (List cell) :=
  (List.range (num_rows t)).map (row_at t)

/-- A scalar: a single typed value, possibly null. -/
structure scalar where
  type : dtype
  value : cell
deriving DecidableEq, Repr

/-- A materialized result column of a bound search: element type tag,
nullability, and the index data. -/
structure result_column where
  type : dtype
  nullable : Bool
  data : List Nat
deriving DecidableEq, Repr

/-- Modelled from the spec (section 7): the error taxonomy relevant to
validation, shape/arity errors and type-mismatch errors. -/
inductive search_error where
  | shape_mismatch
  | type_mismatch
deriving DecidableEq, Repr

/-- Modelled from the spec (section 4.2): the shape precondition, the order
and null-precedence vectors each as long as the column count of t and of
values. -/
def shape_ok (t values : table_view) (column_order : List order)
    (null_precedence : List null_order) : Bool :=
  column_order.length == t.length && null_precedence.length == t.length &&
  column_order.length == values.length && null_precedence.length == values.length

/-- Modelled from the spec (section 4.2): the type precondition, t and
values with identical column count and identical per-column element types. -/
def types_ok (t values : table_view) : Bool :=
  t.length == values.length &&
  (t.zip values).all fun p => p.1.type == p.2.type

/-- Modelled from the spec (section 4.2): binary search, the interval
halving each step until empty; the fuel argument only bounds the number of
halvings and never runs out when it starts at the interval's width. -/
def bsearchAux (pred : Nat → Bool) : Nat → Nat → Nat → Nat
  | 0, lo, _ => lo
  | fuel + 1, lo, hi =>
    if lo < hi then
      if pred ((lo + hi) / 2) then bsearchAux pred fuel lo ((lo + hi) / 2)
      else bsearchAux pred fuel ((lo + hi) / 2 + 1) hi
    else lo

/-- Binary search over the index range [0, n) for the first index at which
pred holds, returning n when pred holds nowhere. -/
def bsearch (pred : Nat → Bool) (n : Nat) : Nat :=
  bsearchAux pred n 0 n

/-- Modelled from the spec (section 4.2, LOWER mode): the smallest index i
such that comparing table row i against the query row v is not LESS. -/
def lower_bound_index (t : table_view) (column_order : List order)
    (null_precedence : List null_order) (v : List cell) : Nat :=
  bsearch
    (fun i => decide (compare_rows column_order null_precedence (row_at t i) v ≠ .LESS))
    (num_rows t)

/-- Modelled from the spec (section 4.2, UPPER mode): the smallest index i
such that comparing table row i against the query row v is GREATER. -/
def upper_bound_index (t : table_view) (column_order : List order)
    (null_precedence : List null_order) (v : List cell) : Nat :=
  bsearch
    (fun i => decide (compare_rows column_order null_precedence (row_at t i) v = .GREATER))
    (num_rows t)

/-- Modelled from the spec: lower_bound of search.hpp.  Validates shape and
types, then materializes a non-nullable size_type column holding, per query
row of values in order, the LOWER-mode insertion index. -/
def lower_bound (t values : table_view) (column_order : List order)
    (null_precedence : List null_order) : Except search_error result_column :=
  if shape_ok t values column_order null_precedence then
    if types_ok t values then
      .ok { type := size_type, nullable := false,
            data := (List.range (num_rows values)).map
              fun k => lower_bound_index t column_order null_precedence (row_at values k) }
    else .error .type_mismatch
  else .error .shape_mismatch

/-- Modelled from the spec: upper_bound of search.hpp.  Validates shape and
types, then materializes a non-nullable size_type column holding, per query
row of values in order, the UPPER-mode insertion index. -/
def upper_bound (t values : table_view) (column_order : List order)
    (null_precedence : List null_order) : Except search_error result_column :=
  if shape_ok t values column_order null_precedence then
    if types_ok t values then
      .ok { type := size_type, nullable := false,
            data := (List.range (num_rows values)).map
              fun k => upper_bound_index t column_order null_precedence (row_at values k) }
    else .error .type_mismatch
  else .error .shape_mismatch

/-- Modelled from the spec (section 4.3): contains of search.hpp.  Fails on
a scalar whose type differs from the column's element type, otherwise true
iff some element of the column equals the scalar's value, null equal only
to null; no sortedness of the column is assumed. -/
def contains (col : column_view) (value : scalar) : Except search_error Bool :=
  if value.type = col.type then
    .ok (col.cells.any fun c => decide (c = value.value))
  else .error .type_mismatch

/-- Modelled from the spec (sections 5 and 6): the observable state a call
touches, the borrowed tables and the pool of output buffers produced by the
allocator collaborator. -/
structure engine_state where
  tables : List table_view
  pool : List (List Nat)
deriving DecidableEq, Repr

/-- Modelled from the spec: a lower_bound call against tables held in the
engine state (t at index ti, values at index vi).  A validation failure
returns the error with the state untouched; success appends exactly one
freshly allocated output buffer and leaves the tables untouched. -/
def lower_bound_exec (s : engine_state) (ti vi : Nat) (column_order : List order)
    (null_precedence : List null_order) : Except search_error (List Nat) × engine_state :=
  match lower_bound (s.tables.getD ti []) (s.tables.getD vi []) column_order null_precedence with
  | .error e => (.error e, s)
  | .ok rc => (.ok rc.data, { s with pool := s.pool ++ [rc.data] })

/-- Modelled from the spec: an upper_bound call against tables held in the
engine state, with the same state discipline as lower_bound_exec. -/
def upper_bound_exec (s : engine_state) (ti vi : Nat) (column_order : List order)
    (null_precedence : List null_order) : Except search_error (List Nat) × engine_state :=
  match upper_bound (s.tables.getD ti []) (s.tables.getD vi []) column_order null_precedence with
  | .error e => (.error e, s)
  | .ok rc => (.ok rc.data, { s with pool := s.pool ++ [rc.data] })

/-- Row a is at-or-before row b under the composite order. -/
def row_le (column_order : List order) (null_precedence : List null_order)
    (a b : List cell) : Prop :=
  compare_rows column_order null_precedence a b ≠ .GREATER

instance (column_order : List order) (null_precedence : List null_order)
    (a b : List cell) : Decidable (row_le column_order null_precedence a b) := by
  unfold row_le
  infer_instance

/-- Modelled from the spec (section 3): the sortedness precondition of the
bound searches, rows non-decreasing under the composite order. -/
def sorted_table (t : table_view) (column_order : List order)
    (null_precedence : List null_order) : Prop :=
  (rows_of t).Pairwise (row_le column_order null_precedence)

instance (t : table_view) (column_order : List order)
    (null_precedence : List null_order) :
    Decidable (sorted_table t column_order null_precedence) := by
  unfold sorted_table
  infer_instance

/-- Key of a cell under a column's direction and null precedence: a rank
for null placement paired with a direction-adjusted value, so that the
column comparator agrees with the lexicographic order on keys. -/
def cellKey (o : order) (np : null_order) : cell → Nat × Int
  | none =>
      ((match np with
        | .NULLS_FIRST => 0
        | .NULLS_LAST => 2), 0)
  | some x =>
      (1, match o with
          | .ASCENDING => x
          | .DESCENDING => -x)

/-- Three-way comparison of keys, lexicographic on rank then value. -/
def comparePair (p q : Nat × Int) : weak_ordering :=
  if p.1 < q.1 then .LESS
  else if q.1 < p.1 then .GREATER
  else compareVal p.2 q.2

/-- Strict lexicographic order on keys. -/
def pairLt (p q : Nat × Int) : Prop :=
  p.1 < q.1 ∨ (p.1 = q.1 ∧ p.2 < q.2)

theorem pairLt_trans {p q r : Nat × Int} (h1 : pairLt p q) (h2 : pairLt q r) :
    pairLt p r := by
  unfold pairLt at *
  omega

theorem compareVal_neg (x y : Int) : compareVal (-x) (-y) = (compareVal x y).flip := by
  unfold compareVal weak_ordering.flip
  split_ifs <;> first | rfl | omega

theorem comparePair_lt_iff (p q : Nat × Int) : comparePair p q = .LESS ↔ pairLt p q := by
  unfold comparePair compareVal pairLt
  split_ifs <;> simp <;> omega

theorem comparePair_gt_iff (p q : Nat × Int) : comparePair p q = .GREATER ↔ pairLt q p := by
  unfold comparePair compareVal pairLt
  split_ifs <;> simp <;> omega

theorem comparePair_eq_iff (p q : Nat × Int) : comparePair p q = .EQUAL ↔ p = q := by
  unfold comparePair compareVal
  rcases p with ⟨a, x⟩
  rcases q with ⟨b, y⟩
  simp only [Prod.mk.injEq]
  split_ifs <;> simp <;> omega

theorem compareCell_eq_comparePair (o : order) (np : null_order) (a b : cell) :
    compareCell o np a b = comparePair (cellKey o np a) (cellKey o np b) := by
  rcases a with _ | x <;> rcases b with _ | y <;> cases o <;> cases np <;>
    first
      | rfl
      | exact (compareVal_neg x y).symm

theorem compareCell_lt_iff (o : order) (np : null_order) (a b : cell) :
    compareCell o np a b = .LESS ↔ pairLt (cellKey o np a) (cellKey o np b) := by
  rw [compareCell_eq_comparePair, comparePair_lt_iff]

theorem compareCell_gt_iff (o : order) (np : null_order) (a b : cell) :
    compareCell o np a b = .GREATER ↔ pairLt (cellKey o np b) (cellKey o np a) := by
  rw [compareCell_eq_comparePair, comparePair_gt_iff]

theorem compareCell_eq_iff (o : order) (np : null_order) (a b : cell) :
    compareCell o np a b = .EQUAL ↔ cellKey o np a = cellKey o np b := by
  rw [compareCell_eq_comparePair, comparePair_eq_iff]

theorem compare_rows_nil_os (ns : List null_order) (a b : List cell) :
    compare_rows [] ns a b = .EQUAL := rfl

theorem compare_rows_nil_ns (os : List order) (a b : List cell) :
    compare_rows os [] a b = .EQUAL := by
  cases os <;> rfl

theorem compare_rows_nil_left (os : List order) (ns : List null_order) (b : List cell) :
    compare_rows os ns [] b = .EQUAL := by
  cases os <;> cases ns <;> rfl

theorem compare_rows_nil_right (os : List order) (ns : List null_order) (a : List cell) :
    compare_rows os ns a [] = .EQUAL := by
  cases os <;> cases ns <;> cases a <;> rfl

theorem compare_rows_cons (o : order) (os : List order) (n : null_order)
    (ns : List null_order) (x y : cell) (xs ys : List cell) :
    compare_rows (o :: os) (n :: ns) (x :: xs) (y :: ys) =
      match compareCell o n x y with
      | .EQUAL => compare_rows os ns xs ys
      | r => r := rfl

theorem compare_rows_refl (os : List order) (ns : List null_order) (a : List cell) :
    compare_rows os ns a a = .EQUAL := by
  induction a generalizing os ns with
  | nil => exact compare_rows_nil_left os ns []
  | cons x xs ih =>
      cases os with
      | nil => exact compare_rows_nil_os _ _ _
      | cons o os =>
          cases ns with
          | nil => exact compare_rows_nil_ns _ _ _
          | cons n ns =>
              rw [compare_rows_cons, (compareCell_eq_iff o n x x).mpr rfl]
              exact ih os ns

theorem compare_rows_le_lt_trans (os : List order) (ns : List null_order)
    (a b c : List cell) (hab : a.length = b.length) (hbc : b.length = c.length)
    (h1 : compare_rows os ns a b ≠ .GREATER) (h2 : compare_rows os ns b c = .LESS) :
    compare_rows os ns a c = .LESS := by
  induction a generalizing os ns b c with
  | nil =>
      rcases b with _ | ⟨y, ys⟩
      · rw [compare_rows_nil_left] at h2
        exact absurd h2 (by decide)
      · simp at hab
  | cons x xs ih =>
      rcases b with _ | ⟨y, ys⟩
      · simp at hab
      rcases c with _ | ⟨z, zs⟩
      · simp at hbc
      cases os with
      | nil =>
          rw [compare_rows_nil_os] at h2
          exact absurd h2 (by decide)
      | cons o os =>
          cases ns with
          | nil =>
              rw [compare_rows_nil_ns] at h2
              exact absurd h2 (by decide)
          | cons n ns =>
              simp only [List.length_cons] at hab hbc
              rw [compare_rows_cons] at h1 h2 ⊢
              cases hxy : compareCell o n x y with
              | GREATER =>
                  rw [hxy] at h1
                  exact absurd rfl h1
              | LESS =>
                  cases hyz : compareCell o n y z with
                  | GREATER =>
                      rw [hyz] at h2
                      have h2x : weak_ordering.GREATER = weak_ordering.LESS := h2
                      exact weak_ordering.noConfusion h2x
                  | LESS =>
                      have hxz : compareCell o n x z = .LESS :=
                        (compareCell_lt_iff o n x z).mpr
                          (pairLt_trans ((compareCell_lt_iff o n x y).mp hxy)
                            ((compareCell_lt_iff o n y z).mp hyz))
                      simp only [hxz]
                  | EQUAL =>
                      have hkey := (compareCell_eq_iff o n y z).mp hyz
                      have hxz : compareCell o n x z = .LESS := by
                        rw [compareCell_lt_iff o n x z, ← hkey]
                        exact (compareCell_lt_iff o n x y).mp hxy
                      simp only [hxz]
              | EQUAL =>
                  rw [hxy] at h1
                  have h1x : compare_rows os ns xs ys ≠ .GREATER := h1
                  have hkey := (compareCell_eq_iff o n x y).mp hxy
                  cases hyz : compareCell o n y z with
                  | GREATER =>
                      rw [hyz] at h2
                      have h2x : weak_ordering.GREATER = weak_ordering.LESS := h2
                      exact weak_ordering.noConfusion h2x
                  | LESS =>
                      have hxz : compareCell o n x z = .LESS := by
                        rw [compareCell_lt_iff o n x z, hkey]
                        exact (compareCell_lt_iff o n y z).mp hyz
                      simp only [hxz]
                  | EQUAL =>
                      rw [hyz] at h2
                      have h2x : compare_rows os ns ys zs = .LESS := h2
                      have hxz : compareCell o n x z = .EQUAL := by
                        rw [compareCell_eq_iff o n x z, hkey]
                        exact (compareCell_eq_iff o n y z).mp hyz
                      simp only [hxz]
                      exact ih os ns ys zs (by omega) (by omega) h1x h2x

theorem compare_rows_le_trans (os : List order) (ns : List null_order)
    (a b c : List cell) (hab : a.length = b.length) (hbc : b.length = c.length)
    (h1 : compare_rows os ns a b ≠ .GREATER) (h2 : compare_rows os ns b c ≠ .GREATER) :
    compare_rows os ns a c ≠ .GREATER := by
  induction a generalizing os ns b c with
  | nil =>
      rw [compare_rows_nil_left]
      decide
  | cons x xs ih =>
      rcases b with _ | ⟨y, ys⟩
      · simp at hab
      rcases c with _ | ⟨z, zs⟩
      · simp at hbc
      cases os with
      | nil => rw [compare_rows_nil_os]; decide
      | cons o os =>
          cases ns with
          | nil => rw [compare_rows_nil_ns]; decide
          | cons n ns =>
              simp only [List.length_cons] at hab hbc
              rw [compare_rows_cons] at h1 h2 ⊢
              cases hxy : compareCell o n x y with
              | GREATER =>
                  rw [hxy] at h1
                  exact absurd rfl h1
              | LESS =>
                  cases hyz : compareCell o n y z with
                  | GREATER =>
                      rw [hyz] at h2
                      exact absurd rfl h2
                  | LESS =>
                      have hxz : compareCell o n x z = .LESS :=
                        (compareCell_lt_iff o n x z).mpr
                          (pairLt_trans ((compareCell_lt_iff o n x y).mp hxy)
                            ((compareCell_lt_iff o n y z).mp hyz))
                      simp only [hxz]
                      decide
                  | EQUAL =>
                      have hkey := (compareCell_eq_iff o n y z).mp hyz
                      have hxz : compareCell o n x z = .LESS := by
                        rw [compareCell_lt_iff o n x z, ← hkey]
                        exact (compareCell_lt_iff o n x y).mp hxy
                      simp only [hxz]
                      decide
              | EQUAL =>
                  rw [hxy] at h1
                  have h1x : compare_rows os ns xs ys ≠ .GREATER := h1
                  have hkey := (compareCell_eq_iff o n x y).mp hxy
                  cases hyz : compareCell o n y z with
                  | GREATER =>
                      rw [hyz] at h2
                      exact absurd rfl h2
                  | LESS =>
                      have hxz : compareCell o n x z = .LESS := by
                        rw [compareCell_lt_iff o n x z, hkey]
                        exact (compareCell_lt_iff o n y z).mp hyz
                      simp only [hxz]
                      decide
                  | EQUAL =>
                      rw [hyz] at h2
                      have h2x : compare_rows os ns ys zs ≠ .GREATER := h2
                      have hxz : compareCell o n x z = .EQUAL := by
                        rw [compareCell_eq_iff o n x z, hkey]
                        exact (compareCell_eq_iff o n y z).mp hyz
                      simp only [hxz]
                      exact ih os ns ys zs (by omega) (by omega) h1x h2x

theorem bsearchAux_le (pred : Nat → Bool) (fuel : Nat) :
    ∀ lo hi : Nat, lo ≤ hi →
      lo ≤ bsearchAux pred fuel lo hi ∧ bsearchAux pred fuel lo hi ≤ hi := by
  induction fuel with
  | zero =>
      intro lo hi h
      exact ⟨Nat.le_refl lo, h⟩
  | succ fuel ih =>
      intro lo hi h
      simp only [bsearchAux]
      by_cases hlh : lo < hi
      · rw [if_pos hlh]
        by_cases hp : pred ((lo + hi) / 2) = true
        · rw [if_pos hp]
          have := ih lo ((lo + hi) / 2) (by omega)
          omega
        · rw [if_neg hp]
          have := ih ((lo + hi) / 2 + 1) hi (by omega)
          omega
      · rw [if_neg hlh]
        exact ⟨Nat.le_refl lo, h⟩

theorem bsearchAux_spec (pred : Nat → Bool) (fuel : Nat) :
    ∀ lo hi : Nat, hi - lo ≤ fuel → lo ≤ hi →
      (∀ i j, lo ≤ i → i ≤ j → j < hi → pred i = true → pred j = true) →
      (∀ i, lo ≤ i → i < bsearchAux pred fuel lo hi → pred i = false) ∧
      (∀ j, bsearchAux pred fuel lo hi ≤ j → j < hi → pred j = true) := by
  induction fuel with
  | zero =>
      intro lo hi hfuel hlh hmono
      constructor
      · intro i h1 h2
        simp only [bsearchAux] at h2
        omega
      · intro j hj1 hj2
        exact absurd hj2 (by simp only [bsearchAux] at hj1; omega)
  | succ fuel ih =>
      intro lo hi hfuel hlh hmono
      simp only [bsearchAux]
      by_cases hlh2 : lo < hi
      · rw [if_pos hlh2]
        by_cases hp : pred ((lo + hi) / 2) = true
        · rw [if_pos hp]
          obtain ⟨H1, H2⟩ := ih lo ((lo + hi) / 2) (by omega) (by omega)
            (fun i j h1 h2 h3 h4 => hmono i j h1 h2 (by omega) h4)
          refine ⟨H1, ?_⟩
          intro j hj1 hj2
          by_cases hjm : j < (lo + hi) / 2
          · exact H2 j hj1 hjm
          · exact hmono ((lo + hi) / 2) j (by omega) (by omega) hj2 hp
        · rw [if_neg hp]
          obtain ⟨H1, H2⟩ := ih ((lo + hi) / 2 + 1) hi (by omega) (by omega)
            (fun i j h1 h2 h3 h4 => hmono i j (by omega) h2 h3 h4)
          refine ⟨?_, H2⟩
          intro i h1 h2
          by_cases him : (lo + hi) / 2 + 1 ≤ i
          · exact H1 i him h2
          · cases hpi : pred i with
            | false => rfl
            | true =>
                exact absurd (hmono i ((lo + hi) / 2) h1 (by omega) (by omega) hpi) hp
      · rw [if_neg hlh2]
        constructor
        · intro i h1 h2
          exact absurd h2 (by omega)
        · intro j hj1 hj2
          exact absurd hj2 (by omega)

theorem countP_range_min (q : Nat → Bool) (n r : Nat)
    (h : ∀ i, i < n → (q i = true ↔ i < r)) :
    List.countP q (List.range n) = min r n := by
  induction n with
  | zero => simp
  | succ n ih =>
      rw [List.range_succ, List.countP_append]
      have hr := ih fun i hi => h i (by omega)
      by_cases hc : n < r
      · have hq : q n = true := (h n (by omega)).mpr hc
        simp only [List.countP_cons, List.countP_nil, hq, if_true, hr]
        omega
      · have hq : q n = false := by
          cases hqn : q n with
          | false => rfl
          | true => exact absurd ((h n (by omega)).mp hqn) hc
        simp [List.countP_cons, hq, hr]
        omega

theorem row_at_length (t : table_view) (i : Nat) : (row_at t i).length = t.length := by
  simp [row_at]

theorem rows_of_length (t : table_view) : (rows_of t).length = num_rows t := by
  simp [rows_of]

theorem rows_le_of_sorted (t : table_view) (co : List order) (np : List null_order)
    (hs : sorted_table t co np) :
    ∀ i j, i ≤ j → j < num_rows t →
      compare_rows co np (row_at t i) (row_at t j) ≠ .GREATER := by
  intro i j hij hj
  rcases Nat.eq_or_lt_of_le hij with heq | hlt
  · subst heq
    rw [compare_rows_refl]
    decide
  · have hlen := rows_of_length t
    have hp := List.pairwise_iff_getElem.mp hs i j (by omega) (by omega) hlt
    simpa [rows_of, row_le] using hp

theorem bsearch_least (pred : Nat → Bool) (n : Nat)
    (hmono : ∀ i j, i ≤ j → j < n → pred i = true → pred j = true) :
    bsearch pred n ≤ n ∧
    (∀ i, i < bsearch pred n → pred i = false) ∧
    (∀ j, bsearch pred n ≤ j → j < n → pred j = true) ∧
    List.countP (fun i => !pred i) (List.range n) = bsearch pred n := by
  obtain ⟨H1, H2⟩ := bsearchAux_spec pred n 0 n (by omega) (Nat.zero_le n)
    fun i j h1 h2 h3 h4 => hmono i j h2 h3 h4
  have hbd := bsearchAux_le pred n 0 n (Nat.zero_le n)
  unfold bsearch
  refine ⟨hbd.2, fun i hi => H1 i (Nat.zero_le i) hi, fun j h1 h2 => H2 j h1 h2, ?_⟩
  rw [countP_range_min (fun i => !pred i) n (bsearchAux pred n 0 n) ?_]
  · have := hbd.2
    omega
  · intro i hi
    constructor
    · intro hq
      by_contra hir
      have hp := H2 i (by omega) hi
      simp [hp] at hq
    · intro hir
      have hp := H1 i (Nat.zero_le i) hir
      simp [hp]

theorem lower_bound_index_spec (t : table_view) (co : List order) (np : List null_order)
    (v : List cell) (hs : sorted_table t co np) (hv : v.length = t.length) :
    lower_bound_index t co np v ≤ num_rows t ∧
    (∀ j, j < lower_bound_index t co np v → compare_rows co np (row_at t j) v = .LESS) ∧
    (lower_bound_index t co np v < num_rows t →
      compare_rows co np (row_at t (lower_bound_index t co np v)) v ≠ .LESS) ∧
    lower_bound_index t co np v =
      List.countP (fun r => decide (compare_rows co np r v = .LESS)) (rows_of t) := by
  have hle := rows_le_of_sorted t co np hs
  have hmono : ∀ i j, i ≤ j → j < num_rows t →
      decide (compare_rows co np (row_at t i) v ≠ .LESS) = true →
      decide (compare_rows co np (row_at t j) v ≠ .LESS) = true := by
    intro i j hij hj hpi
    rw [decide_eq_true_eq] at hpi ⊢
    intro hjl
    exact hpi (compare_rows_le_lt_trans co np (row_at t i) (row_at t j) v
      (by rw [row_at_length, row_at_length]) (by rw [row_at_length, hv])
      (hle i j hij hj) hjl)
  obtain ⟨B1, B2, B3, B4⟩ :=
    bsearch_least (fun i => decide (compare_rows co np (row_at t i) v ≠ .LESS))
      (num_rows t) hmono
  refine ⟨B1, ?_, ?_, ?_⟩
  · intro j hj
    have hb := B2 j hj
    simp only [decide_eq_false_iff_not, not_not] at hb
    exact hb
  · intro hlt
    have hb := B3 (lower_bound_index t co np v) (Nat.le_refl _) hlt
    simpa using hb
  · refine Eq.trans B4.symm ?_
    simp only [rows_of, List.countP_map]
    congr 1
    funext i
    cases h : compare_rows co np (row_at t i) v <;> simp [Function.comp, h]

theorem upper_bound_index_spec (t : table_view) (co : List order) (np : List null_order)
    (v : List cell) (hs : sorted_table t co np) (hv : v.length = t.length) :
    upper_bound_index t co np v ≤ num_rows t ∧
    (∀ j, j < upper_bound_index t co np v → compare_rows co np (row_at t j) v ≠ .GREATER) ∧
    (upper_bound_index t co np v < num_rows t →
      compare_rows co np (row_at t (upper_bound_index t co np v)) v = .GREATER) ∧
    upper_bound_index t co np v =
      List.countP (fun r => decide (compare_rows co np r v ≠ .GREATER)) (rows_of t) := by
  have hle := rows_le_of_sorted t co np hs
  have hmono : ∀ i j, i ≤ j → j < num_rows t →
      decide (compare_rows co np (row_at t i) v = .GREATER) = true →
      decide (compare_rows co np (row_at t j) v = .GREATER) = true := by
    intro i j hij hj hpi
    rw [decide_eq_true_eq] at hpi ⊢
    by_contra hne
    exact (compare_rows_le_trans co np (row_at t i) (row_at t j) v
      (by rw [row_at_length, row_at_length]) (by rw [row_at_length, hv])
      (hle i j hij hj) hne) hpi
  obtain ⟨B1, B2, B3, B4⟩ :=
    bsearch_least (fun i => decide (compare_rows co np (row_at t i) v = .GREATER))
      (num_rows t) hmono
  refine ⟨B1, ?_, ?_, ?_⟩
  · intro j hj
    have hb := B2 j hj
    simpa using hb
  · intro hlt
    have hb := B3 (upper_bound_index t co np v) (Nat.le_refl _) hlt
    simpa using hb
  · refine Eq.trans B4.symm ?_
    simp only [rows_of, List.countP_map]
    congr 1
    funext i
    cases h : compare_rows co np (row_at t i) v <;> simp [Function.comp, h]

theorem lower_bound_ok_elim (t values : table_view) (co : List order)
    (np : List null_order) (rc : result_column)
    (h : lower_bound t values co np = .ok rc) :
    shape_ok t values co np = true ∧ types_ok t values = true ∧
    rc = ⟨size_type, false,
          (List.range (num_rows values)).map
            fun k => lower_bound_index t co np (row_at values k)⟩ := by
  unfold lower_bound at h
  by_cases h1 : shape_ok t values co np = true
  · rw [if_pos h1] at h
    by_cases h2 : types_ok t values = true
    · rw [if_pos h2] at h
      injection h with h
      exact ⟨h1, h2, h.symm⟩
    · rw [if_neg h2] at h
      exact Except.noConfusion h
  · rw [if_neg h1] at h
    exact Except.noConfusion h

theorem upper_bound_ok_elim (t values : table_view) (co : List order)
    (np : List null_order) (rc : result_column)
    (h : upper_bound t values co np = .ok rc) :
    shape_ok t values co np = true ∧ types_ok t values = true ∧
    rc = ⟨size_type, false,
          (List.range (num_rows values)).map
            fun k => upper_bound_index t co np (row_at values k)⟩ := by
  unfold upper_bound at h
  by_cases h1 : shape_ok t values co np = true
  · rw [if_pos h1] at h
    by_cases h2 : types_ok t values = true
    · rw [if_pos h2] at h
      injection h with h
      exact ⟨h1, h2, h.symm⟩
    · rw [if_neg h2] at h
      exact Except.noConfusion h
  · rw [if_neg h1] at h
    exact Except.noConfusion h

theorem types_ok_length (t values : table_view) (h : types_ok t values = true) :
    t.length = values.length := by
  unfold types_ok at h
  simp only [Bool.and_eq_true, beq_iff_eq] at h
  exact h.1

theorem countP_ne_gt_split (co : List order) (np : List null_order) (v : List cell)
    (l : List (List cell)) :
    List.countP (fun r => decide (compare_rows co np r v ≠ .GREATER)) l =
      List.countP (fun r => decide (compare_rows co np r v = .LESS)) l +
      List.countP (fun r => decide (compare_rows co np r v = .EQUAL)) l := by
  induction l with
  | nil => simp
  | cons a l ih =>
      rw [List.countP_cons, List.countP_cons, List.countP_cons, ih]
      cases h : compare_rows co np a v <;> simp [h] <;> omega

def ex_order : List order := [order.ASCENDING]

def ex_np : List null_order := [null_order.NULLS_FIRST]

def ex1_t : table_view := [⟨dtype.INT32, [some 10, some 20, some 20, some 30, some 50]⟩]

def ex1_v : table_view := [⟨dtype.INT32, [some 20]⟩]

def ex2_t : table_view :=
  [⟨dtype.INT32, [some 10, some 20, some 20, some 20, some 20]⟩,
   ⟨dtype.FLOAT64, [some 50, some 5, some 5, some 7, some 7]⟩,
   ⟨dtype.INT32, [some 90, some 77, some 78, some 61, some 61]⟩]

def ex2_v : table_view :=
  [⟨dtype.INT32, [some 20]⟩, ⟨dtype.FLOAT64, [some 7]⟩, ⟨dtype.INT32, [some 61]⟩]

def ex2_order : List order := [order.ASCENDING, order.ASCENDING, order.ASCENDING]

def ex2_np : List null_order :=
  [null_order.NULLS_FIRST, null_order.NULLS_FIRST, null_order.NULLS_FIRST]

/-- C1: for every sorted table t (per column_order and null_precedence) and
every query row of values, lower_bound returns at that row's position the
smallest index whose table row does not compare LESS against the query row
under the composite order, equivalently the count of table rows strictly
ordered before the query row; the witness instantiates the two worked
examples, {10,20,20,30,50} with query {20} giving {1}, and the
all-ascending multi-column table with query row (20, .7, 61) giving {3}. -/
theorem lower_bound_spec (t values : table_view) (column_order : List order)
    (null_precedence : List null_order) (rc : result_column)
    (hs : sorted_table t column_order null_precedence)
    (hok : lower_bound t values column_order null_precedence = .ok rc) :
    ∀ k (hk : k < rc.data.length),
      (∀ j, j < rc.data.get ⟨k, hk⟩ →
         compare_rows column_order null_precedence (row_at t j) (row_at values k) = .LESS) ∧
      (rc.data.get ⟨k, hk⟩ < num_rows t →
         compare_rows column_order null_precedence
           (row_at t (rc.data.get ⟨k, hk⟩)) (row_at values k) ≠ .LESS) ∧
      rc.data.get ⟨k, hk⟩ ≤ num_rows t ∧
      rc.data.get ⟨k, hk⟩ =
        List.countP
          (fun r => decide (compare_rows column_order null_precedence r (row_at values k) = .LESS))
          (rows_of t) := by
  obtain ⟨h1, h2, h3⟩ := lower_bound_ok_elim t values column_order null_precedence rc hok
  intro k hk
  have hget : rc.data.get ⟨k, hk⟩ =
      lower_bound_index t column_order null_precedence (row_at values k) := by
    subst h3
    simp [List.get_eq_getElem]
  have hlen : (row_at values k).length = t.length := by
    rw [row_at_length]
    exact (types_ok_length t values h2).symm
  obtain ⟨S1, S2, S3, S4⟩ :=
    lower_bound_index_spec t column_order null_precedence (row_at values k) hs hlen
  rw [hget]
  exact ⟨S2, S3, S1, S4⟩

/-- Witness for C1, the header's two worked examples. -/
theorem lower_bound_spec_witness :
    (sorted_table ex1_t ex_order ex_np ∧
     lower_bound ex1_t ex1_v ex_order ex_np = .ok ⟨size_type, false, [1]⟩ ∧
     (1 : Nat) =
       List.countP (fun r => decide (compare_rows ex_order ex_np r (row_at ex1_v 0) = .LESS))
         (rows_of ex1_t)) ∧
    (sorted_table ex2_t ex2_order ex2_np ∧
     lower_bound ex2_t ex2_v ex2_order ex2_np = .ok ⟨size_type, false, [3]⟩ ∧
     (3 : Nat) =
       List.countP (fun r => decide (compare_rows ex2_order ex2_np r (row_at ex2_v 0) = .LESS))
         (rows_of ex2_t)) :=
  ⟨⟨by decide, rfl,
    (lower_bound_spec ex1_t ex1_v ex_order ex_np ⟨size_type, false, [1]⟩ (by decide) rfl
      0 (by decide)).2.2.2⟩,
   ⟨by decide, rfl,
    (lower_bound_spec ex2_t ex2_v ex2_order ex2_np ⟨size_type, false, [3]⟩ (by decide) rfl
      0 (by decide)).2.2.2⟩⟩

/-- C2: for every sorted table t and every query row of values, upper_bound
returns at that row's position the smallest index whose table row compares
GREATER against the query row under the composite order, equivalently the
count of table rows ordered at-or-before the query row; the witness
instantiates {10,20,20,30,50} with query {20} giving {3}. -/
theorem upper_bound_spec (t values : table_view) (column_order : List order)
    (null_precedence : List null_order) (rc : result_column)
    (hs : sorted_table t column_order null_precedence)
    (hok : upper_bound t values column_order null_precedence = .ok rc) :
    ∀ k (hk : k < rc.data.length),
      (∀ j, j < rc.data.get ⟨k, hk⟩ →
         compare_rows column_order null_precedence (row_at t j) (row_at values k) ≠ .GREATER) ∧
      (rc.data.get ⟨k, hk⟩ < num_rows t →
         compare_rows column_order null_precedence
           (row_at t (rc.data.get ⟨k, hk⟩)) (row_at values k) = .GREATER) ∧
      rc.data.get ⟨k, hk⟩ ≤ num_rows t ∧
      rc.data.get ⟨k, hk⟩ =
        List.countP
          (fun r => decide (compare_rows column_order null_precedence r (row_at values k) ≠ .GREATER))
          (rows_of t) := by
  obtain ⟨h1, h2, h3⟩ := upper_bound_ok_elim t values column_order null_precedence rc hok
  intro k hk
  have hget : rc.data.get ⟨k, hk⟩ =
      upper_bound_index t column_order null_precedence (row_at values k) := by
    subst h3
    simp [List.get_eq_getElem]
  have hlen : (row_at values k).length = t.length := by
    rw [row_at_length]
    exact (types_ok_length t values h2).symm
  obtain ⟨S1, S2, S3, S4⟩ :=
    upper_bound_index_spec t column_order null_precedence (row_at values k) hs hlen
  rw [hget]
  exact ⟨S2, S3, S1, S4⟩

/-- Witness for C2, the header's single-column worked example. -/
theorem upper_bound_spec_witness :
    sorted_table ex1_t ex_order ex_np ∧
    upper_bound ex1_t ex1_v ex_order ex_np = .ok ⟨size_type, false, [3]⟩ ∧
    (3 : Nat) =
      List.countP (fun r => decide (compare_rows ex_order ex_np r (row_at ex1_v 0) ≠ .GREATER))
        (rows_of ex1_t) :=
  ⟨by decide, rfl,
   (upper_bound_spec ex1_t ex1_v ex_order ex_np ⟨size_type, false, [3]⟩ (by decide) rfl
     0 (by decide)).2.2.2⟩

/-- C3: for every sorted table, per query row the lower_bound index is at
most the upper_bound index, and their difference is the number of table
rows comparing EQUAL to the query row under the composite order. -/
theorem bounds_relation (t values : table_view) (column_order : List order)
    (null_precedence : List null_order) (lrc urc : result_column)
    (hs : sorted_table t column_order null_precedence)
    (hl : lower_bound t values column_order null_precedence = .ok lrc)
    (hu : upper_bound t values column_order null_precedence = .ok urc) :
    ∀ k (hk : k < lrc.data.length) (hk2 : k < urc.data.length),
      lrc.data.get ⟨k, hk⟩ ≤ urc.data.get ⟨k, hk2⟩ ∧
      urc.data.get ⟨k, hk2⟩ - lrc.data.get ⟨k, hk⟩ =
        List.countP
          (fun r => decide (compare_rows column_order null_precedence r (row_at values k) = .EQUAL))
          (rows_of t) := by
  obtain ⟨hs1, ht1, he1⟩ := lower_bound_ok_elim t values column_order null_precedence lrc hl
  obtain ⟨hs2, ht2, he2⟩ := upper_bound_ok_elim t values column_order null_precedence urc hu
  intro k hk hk2
  have hgl : lrc.data.get ⟨k, hk⟩ =
      lower_bound_index t column_order null_precedence (row_at values k) := by
    subst he1
    simp [List.get_eq_getElem]
  have hgu : urc.data.get ⟨k, hk2⟩ =
      upper_bound_index t column_order null_precedence (row_at values k) := by
    subst he2
    simp [List.get_eq_getElem]
  have hlen : (row_at values k).length = t.length := by
    rw [row_at_length]
    exact (types_ok_length t values ht1).symm
  obtain ⟨-, -, -, L4⟩ :=
    lower_bound_index_spec t column_order null_precedence (row_at values k) hs hlen
  obtain ⟨-, -, -, U4⟩ :=
    upper_bound_index_spec t column_order null_precedence (row_at values k) hs hlen
  have hsplit := countP_ne_gt_split column_order null_precedence (row_at values k) (rows_of t)
  rw [hgl, hgu, L4, U4]
  omega

/-- Witness for C3 at the single-column worked example, where the
lower_bound index 1, the upper_bound index 3 and the two EQUAL rows
instantiate the invariant. -/
theorem bounds_relation_witness :
    sorted_table ex1_t ex_order ex_np ∧
    (1 : Nat) ≤ 3 ∧
    (3 : Nat) - 1 =
      List.countP (fun r => decide (compare_rows ex_order ex_np r (row_at ex1_v 0) = .EQUAL))
        (rows_of ex1_t) :=
  ⟨by decide,
   (bounds_relation ex1_t ex1_v ex_order ex_np ⟨size_type, false, [1]⟩ ⟨size_type, false, [3]⟩
     (by decide) rfl rfl 0 (by decide) (by decide)).1,
   (bounds_relation ex1_t ex1_v ex_order ex_np ⟨size_type, false, [1]⟩ ⟨size_type, false, [3]⟩
     (by decide) rfl rfl 0 (by decide) (by decide)).2⟩

/-- C4: the row comparator is lexicographic left-to-right: two nulls
compare EQUAL and the next column is consulted; exactly one null resolves
by the column's null precedence (null LESS under NULLS_FIRST, GREATER
under NULLS_LAST, and symmetrically); two non-null values compare by the
native order with the result flipped when DESCENDING; a non-EQUAL column
short-circuits, an EQUAL column defers to the remaining columns, and if
every column compares EQUAL the overall result is EQUAL. -/
theorem row_comparator_spec :
    (∀ (o : order) (n : null_order), compareCell o n none none = .EQUAL) ∧
    (∀ (o : order) (y : Int),
       compareCell o .NULLS_FIRST none (some y) = .LESS ∧
       compareCell o .NULLS_FIRST (some y) none = .GREATER ∧
       compareCell o .NULLS_LAST none (some y) = .GREATER ∧
       compareCell o .NULLS_LAST (some y) none = .LESS) ∧
    (∀ (n : null_order) (x y : Int),
       compareCell .ASCENDING n (some x) (some y) =
         (if x < y then .LESS else if y < x then .GREATER else .EQUAL) ∧
       compareCell .DESCENDING n (some x) (some y) =
         (compareCell .ASCENDING n (some x) (some y)).flip) ∧
    (∀ (o : order) (os : List order) (n : null_order) (ns : List null_order)
       (x y : cell) (xs ys : List cell), compareCell o n x y = .EQUAL →
       compare_rows (o :: os) (n :: ns) (x :: xs) (y :: ys) = compare_rows os ns xs ys) ∧
    (∀ (o : order) (os : List order) (n : null_order) (ns : List null_order)
       (x y : cell) (xs ys : List cell), compareCell o n x y ≠ .EQUAL →
       compare_rows (o :: os) (n :: ns) (x :: xs) (y :: ys) = compareCell o n x y) ∧
    (∀ (os : List order) (ns : List null_order) (xs ys : List cell),
       (∀ k (h1 : k < os.length) (h2 : k < ns.length) (h3 : k < xs.length)
          (h4 : k < ys.length),
          compareCell (os.get ⟨k, h1⟩) (ns.get ⟨k, h2⟩) (xs.get ⟨k, h3⟩) (ys.get ⟨k, h4⟩)
            = .EQUAL) →
       compare_rows os ns xs ys = .EQUAL) := by
  refine ⟨fun o n => rfl, fun o y => ⟨rfl, rfl, rfl, rfl⟩, fun n x y => ⟨rfl, rfl⟩,
    ?_, ?_, ?_⟩
  · intro o os n ns x y xs ys h
    rw [compare_rows_cons, h]
  · intro o os n ns x y xs ys h
    rw [compare_rows_cons]
    cases hcc : compareCell o n x y with
    | LESS => rfl
    | GREATER => rfl
    | EQUAL => exact absurd hcc h
  · intro os ns xs ys h
    induction xs generalizing os ns ys with
    | nil => exact compare_rows_nil_left os ns ys
    | cons x xs ih =>
        cases os with
        | nil => exact compare_rows_nil_os ns (x :: xs) ys
        | cons o os =>
            cases ns with
            | nil => exact compare_rows_nil_ns (o :: os) (x :: xs) ys
            | cons n ns =>
                cases ys with
                | nil => exact compare_rows_nil_right (o :: os) (n :: ns) (x :: xs)
                | cons y ys =>
                    have h0 := h 0 (by simp) (by simp) (by simp) (by simp)
                    simp only [List.get] at h0
                    rw [compare_rows_cons, h0]
                    apply ih
                    intro k h1 h2 h3 h4
                    have hk := h (k + 1) (by simp; omega) (by simp; omega)
                      (by simp; omega) (by simp; omega)
                    simp only [List.get] at hk
                    exact hk

/-- Witness for C4 at concrete cells, exercising the null rules, the
DESCENDING flip, the short-circuit and the deferral to later columns. -/
theorem row_comparator_spec_witness :
    compareCell .ASCENDING .NULLS_FIRST none none = .EQUAL ∧
    compareCell .ASCENDING .NULLS_FIRST none (some 7) = .LESS ∧
    compare_rows [.ASCENDING] [.NULLS_FIRST] [none] [none] = compare_rows [] [] [] [] ∧
    compare_rows [.DESCENDING] [.NULLS_LAST] [some 1] [some 2] =
      compareCell .DESCENDING .NULLS_LAST (some 1) (some 2) :=
  ⟨row_comparator_spec.1 .ASCENDING .NULLS_FIRST,
   (row_comparator_spec.2.1 .ASCENDING 7).1,
   row_comparator_spec.2.2.2.1 .ASCENDING [] .NULLS_FIRST [] none none [] [] (by decide),
   row_comparator_spec.2.2.2.2.1 .DESCENDING [] .NULLS_LAST [] (some 1) (some 2) [] []
     (by decide)⟩

theorem shape_ok_false_of (t values : table_view) (co : List order)
    (np : List null_order) (h : co.length ≠ t.length ∨ np.length ≠ t.length) :
    shape_ok t values co np = false := by
  rw [Bool.eq_false_iff]
  intro hc
  unfold shape_ok at hc
  simp only [Bool.and_eq_true, beq_iff_eq] at hc
  rcases h with h | h
  · exact h hc.1.1.1
  · exact h hc.1.1.2

theorem types_ok_false_of_mismatch (t values : table_view) (i : Nat)
    (c1 c2 : column_view) (h1 : t.get? i = some c1) (h2 : values.get? i = some c2)
    (hne : c1.type ≠ c2.type) : types_ok t values = false := by
  rw [Bool.eq_false_iff]
  intro hc
  unfold types_ok at hc
  simp only [Bool.and_eq_true, beq_iff_eq, List.all_eq_true] at hc
  have hmem : (c1, c2) ∈ t.zip values := by
    apply List.get?_mem
    rw [List.get?_zip_eq_some]
    exact ⟨h1, h2⟩
  have := hc.2 (c1, c2) hmem
  simp only [decide_eq_true_eq] at this
  exact hne this

/-- C5: a shape/arity mismatch (column_order or null_precedence length
differing from the column count), a per-column element-type mismatch
between t and values, or a contains scalar whose type differs from the
column's element type, each makes the call fail, and a failed call touches
no engine state at all (the error is returned with the state, tables and
buffer pool alike, exactly as it was, so no result is materialized). -/
theorem validation_errors (t values : table_view) (co : List order)
    (np : List null_order) (col : column_view) (v : scalar) (s : engine_state)
    (ti vi : Nat) :
    (co.length ≠ t.length ∨ np.length ≠ t.length →
       lower_bound t values co np = .error .shape_mismatch ∧
       upper_bound t values co np = .error .shape_mismatch) ∧
    ((∃ i c1 c2, t.get? i = some c1 ∧ values.get? i = some c2 ∧ c1.type ≠ c2.type) →
       (∃ e, lower_bound t values co np = .error e) ∧
       (∃ e, upper_bound t values co np = .error e)) ∧
    (v.type ≠ col.type → contains col v = .error .type_mismatch) ∧
    (∀ e, lower_bound (s.tables.getD ti []) (s.tables.getD vi []) co np = .error e →
       lower_bound_exec s ti vi co np = (.error e, s)) ∧
    (∀ e, upper_bound (s.tables.getD ti []) (s.tables.getD vi []) co np = .error e →
       upper_bound_exec s ti vi co np = (.error e, s)) := by
  refine ⟨?_, ?_, ?_, ?_, ?_⟩
  · intro h
    have hf := shape_ok_false_of t values co np h
    constructor <;> simp [lower_bound, upper_bound, hf]
  · rintro ⟨i, c1, c2, hg1, hg2, hne⟩
    have hf := types_ok_false_of_mismatch t values i c1 c2 hg1 hg2 hne
    by_cases hsh : shape_ok t values co np = true
    · exact ⟨⟨.type_mismatch, by simp [lower_bound, hsh, hf]⟩,
        ⟨.type_mismatch, by simp [upper_bound, hsh, hf]⟩⟩
    · exact ⟨⟨.shape_mismatch, by simp [lower_bound, hsh]⟩,
        ⟨.shape_mismatch, by simp [upper_bound, hsh]⟩⟩
  · intro h
    simp [contains, h]
  · intro e he
    unfold lower_bound_exec
    rw [he]
  · intro e he
    unfold upper_bound_exec
    rw [he]

/-- Witness for C5: an empty order vector against a one-column table, a
FLOAT64 query column against an INT32 table column, a FLOAT64 scalar
against an INT32 column, and the state left untouched by a failed call. -/
theorem validation_errors_witness :
    lower_bound ex1_t ex1_v [] [] = .error .shape_mismatch ∧
    (∃ e, lower_bound ex1_t [⟨dtype.FLOAT64, [some 20]⟩] ex_order ex_np = .error e) ∧
    contains ⟨dtype.INT32, [some 1]⟩ ⟨dtype.FLOAT64, some 1⟩ = .error .type_mismatch ∧
    lower_bound_exec ⟨[ex1_t, ex1_v], []⟩ 0 1 [] [] =
      (.error .shape_mismatch, ⟨[ex1_t, ex1_v], []⟩) :=
  ⟨((validation_errors ex1_t ex1_v [] [] ⟨dtype.INT32, []⟩ ⟨dtype.INT32, none⟩
      ⟨[], []⟩ 0 0).1 (Or.inl (by decide))).1,
   ((validation_errors ex1_t [⟨dtype.FLOAT64, [some 20]⟩] ex_order ex_np
      ⟨dtype.INT32, []⟩ ⟨dtype.INT32, none⟩ ⟨[], []⟩ 0 0).2.1
      ⟨0, ⟨dtype.INT32, [some 10, some 20, some 20, some 30, some 50]⟩,
       ⟨dtype.FLOAT64, [some 20]⟩, rfl, rfl, by decide⟩).1,
   (validation_errors ex1_t ex1_v [] [] ⟨dtype.INT32, [some 1]⟩ ⟨dtype.FLOAT64, some 1⟩
      ⟨[], []⟩ 0 0).2.2.1 (by decide),
   (validation_errors ex1_t ex1_v [] [] ⟨dtype.INT32, []⟩ ⟨dtype.INT32, none⟩
      ⟨[ex1_t, ex1_v], []⟩ 0 1).2.2.2.1 .shape_mismatch rfl⟩

/-- C6: for a type-matching scalar, contains returns true exactly when some
element of the column equals the scalar's value under the native equality
with null equal only to null, and returns false on an empty column; the
column is arbitrary, in particular never assumed sorted. -/
theorem contains_spec (col : column_view) (v : scalar) (h : v.type = col.type) :
    (contains col v = .ok true ↔ ∃ i : Fin col.cells.length, col.cells.get i = v.value) ∧
    (col.cells = [] → contains col v = .ok false) := by
  constructor
  · simp [contains, h, List.any_eq_true, List.mem_iff_get]
  · intro hnil
    simp [contains, h, hnil]

/-- Witness for C6 at the header's example column with scalar 20, and at an
empty column with the same scalar. -/
theorem contains_spec_witness :
    ((⟨dtype.INT32, some 20⟩ : scalar).type =
       (⟨dtype.INT32, [some 10, some 20, some 20, some 30, some 50]⟩ : column_view).type ∧
     (contains ⟨dtype.INT32, [some 10, some 20, some 20, some 30, some 50]⟩
        ⟨dtype.INT32, some 20⟩ = .ok true ↔
        ∃ i : Fin (⟨dtype.INT32, [some 10, some 20, some 20, some 30, some 50]⟩ :
            column_view).cells.length,
          (⟨dtype.INT32, [some 10, some 20, some 20, some 30, some 50]⟩ :
            column_view).cells.get i = (⟨dtype.INT32, some 20⟩ : scalar).value)) ∧
    ((⟨dtype.INT32, []⟩ : column_view).cells = [] →
       contains ⟨dtype.INT32, []⟩ ⟨dtype.INT32, some 20⟩ = .ok false) ∧
    contains ⟨dtype.INT32, [some 10, some 20, some 20, some 30, some 50]⟩
      ⟨dtype.INT32, some 20⟩ = .ok true ∧
    contains ⟨dtype.INT32, []⟩ ⟨dtype.INT32, some 20⟩ = .ok false :=
  ⟨⟨rfl, (contains_spec ⟨dtype.INT32, [some 10, some 20, some 20, some 30, some 50]⟩
      ⟨dtype.INT32, some 20⟩ rfl).1⟩,
   (contains_spec ⟨dtype.INT32, []⟩ ⟨dtype.INT32, some 20⟩ rfl).2,
   rfl, rfl⟩

theorem lower_bound_index_le (t : table_view) (co : List order)
    (np : List null_order) (v : List cell) :
    lower_bound_index t co np v ≤ num_rows t :=
  (bsearchAux_le _ (num_rows t) 0 (num_rows t) (Nat.zero_le _)).2

theorem upper_bound_index_le (t : table_view) (co : List order)
    (np : List null_order) (v : List cell) :
    upper_bound_index t co np v ≤ num_rows t :=
  (bsearchAux_le _ (num_rows t) 0 (num_rows t) (Nat.zero_le _)).2

/-- C7: every successful bound search returns one integer index per query
row, in query-row order (entry k is the insertion index computed for row k
of values), and every returned index lies in the inclusive range
[0, num_rows t]. -/
theorem result_shape (t values : table_view) (co : List order)
    (np : List null_order) (lrc urc : result_column) :
    (lower_bound t values co np = .ok lrc →
       lrc.data.length = num_rows values ∧
       (∀ k (hk : k < lrc.data.length),
          lrc.data.get ⟨k, hk⟩ = lower_bound_index t co np (row_at values k)) ∧
       ∀ x ∈ lrc.data, x ≤ num_rows t) ∧
    (upper_bound t values co np = .ok urc →
       urc.data.length = num_rows values ∧
       (∀ k (hk : k < urc.data.length),
          urc.data.get ⟨k, hk⟩ = upper_bound_index t co np (row_at values k)) ∧
       ∀ x ∈ urc.data, x ≤ num_rows t) := by
  constructor
  · intro h
    obtain ⟨h1, h2, h3⟩ := lower_bound_ok_elim t values co np lrc h
    subst h3
    refine ⟨by simp, ?_, ?_⟩
    · intro k hk
      simp [List.get_eq_getElem]
    · intro x hx
      simp only [List.mem_map, List.mem_range] at hx
      obtain ⟨a, ha, hax⟩ := hx
      rw [← hax]
      exact lower_bound_index_le t co np (row_at values a)
  · intro h
    obtain ⟨h1, h2, h3⟩ := upper_bound_ok_elim t values co np urc h
    subst h3
    refine ⟨by simp, ?_, ?_⟩
    · intro k hk
      simp [List.get_eq_getElem]
    · intro x hx
      simp only [List.mem_map, List.mem_range] at hx
      obtain ⟨a, ha, hax⟩ := hx
      rw [← hax]
      exact upper_bound_index_le t co np (row_at values a)

/-- Witness for C7 at the single-column worked example. -/
theorem result_shape_witness :
    lower_bound ex1_t ex1_v ex_order ex_np = .ok ⟨size_type, false, [1]⟩ ∧
    (⟨size_type, false, [1]⟩ : result_column).data.length = num_rows ex1_v ∧
    ∀ x ∈ (⟨size_type, false, [1]⟩ : result_column).data, x ≤ num_rows ex1_t :=
  ⟨rfl,
   ((result_shape ex1_t ex1_v ex_order ex_np ⟨size_type, false, [1]⟩
       ⟨size_type, false, [3]⟩).1 rfl).1,
   ((result_shape ex1_t ex1_v ex_order ex_np ⟨size_type, false, [1]⟩
       ⟨size_type, false, [3]⟩).1 rfl).2.2⟩

/-- C8: lower_bound of a null query value is 0 on the NULLS_FIRST-sorted
column (null, 1, 2), and 2 on the NULLS_LAST-sorted column (1, 2, null). -/
theorem null_precedence_bounds :
    lower_bound [⟨dtype.INT32, [none, some 1, some 2]⟩] [⟨dtype.INT32, [none]⟩]
        [order.ASCENDING] [null_order.NULLS_FIRST] = .ok ⟨size_type, false, [0]⟩ ∧
    lower_bound [⟨dtype.INT32, [some 1, some 2, none]⟩] [⟨dtype.INT32, [none]⟩]
        [order.ASCENDING] [null_order.NULLS_LAST] = .ok ⟨size_type, false, [2]⟩ :=
  ⟨rfl, rfl⟩

theorem lower_bound_exec_tables (s : engine_state) (ti vi : Nat) (co : List order)
    (np : List null_order) : (lower_bound_exec s ti vi co np).2.tables = s.tables := by
  unfold lower_bound_exec
  cases lower_bound (s.tables.getD ti []) (s.tables.getD vi []) co np <;> rfl

theorem upper_bound_exec_tables (s : engine_state) (ti vi : Nat) (co : List order)
    (np : List null_order) : (upper_bound_exec s ti vi co np).2.tables = s.tables := by
  unfold upper_bound_exec
  cases upper_bound (s.tables.getD ti []) (s.tables.getD vi []) co np <;> rfl

theorem lower_bound_exec_fst (s : engine_state) (ti vi : Nat) (co : List order)
    (np : List null_order) :
    (lower_bound_exec s ti vi co np).1 =
      (lower_bound (s.tables.getD ti []) (s.tables.getD vi []) co np).map
        fun rc => rc.data := by
  unfold lower_bound_exec
  cases lower_bound (s.tables.getD ti []) (s.tables.getD vi []) co np <;> rfl

theorem upper_bound_exec_fst (s : engine_state) (ti vi : Nat) (co : List order)
    (np : List null_order) :
    (upper_bound_exec s ti vi co np).1 =
      (upper_bound (s.tables.getD ti []) (s.tables.getD vi []) co np).map
        fun rc => rc.data := by
  unfold upper_bound_exec
  cases upper_bound (s.tables.getD ti []) (s.tables.getD vi []) co np <;> rfl

/-- C9: the bound searches are deterministic and mutate neither t nor
values: a second call with the same arguments, issued after the first,
returns the identical result, and the tables held in the engine state are
unchanged after each call (only the pool of freshly allocated output
buffers grows). -/
theorem search_deterministic (s : engine_state) (ti vi : Nat) (co : List order)
    (np : List null_order) :
    ((lower_bound_exec (lower_bound_exec s ti vi co np).2 ti vi co np).1 =
       (lower_bound_exec s ti vi co np).1 ∧
     (lower_bound_exec s ti vi co np).2.tables = s.tables ∧
     (lower_bound_exec (lower_bound_exec s ti vi co np).2 ti vi co np).2.tables = s.tables) ∧
    ((upper_bound_exec (upper_bound_exec s ti vi co np).2 ti vi co np).1 =
       (upper_bound_exec s ti vi co np).1 ∧
     (upper_bound_exec s ti vi co np).2.tables = s.tables ∧
     (upper_bound_exec (upper_bound_exec s ti vi co np).2 ti vi co np).2.tables = s.tables) := by
  refine ⟨⟨?_, lower_bound_exec_tables s ti vi co np, ?_⟩,
    ⟨?_, upper_bound_exec_tables s ti vi co np, ?_⟩⟩
  · rw [lower_bound_exec_fst, lower_bound_exec_fst, lower_bound_exec_tables]
  · rw [lower_bound_exec_tables, lower_bound_exec_tables]
  · rw [upper_bound_exec_fst, upper_bound_exec_fst, upper_bound_exec_tables]
  · rw [upper_bound_exec_tables, upper_bound_exec_tables]

/-- C10: every successful bound search returns a column whose element type
is the fixed index type size_type and which is non-nullable, whatever the
element types of the input columns. -/
theorem result_type (t values : table_view) (co : List order)
    (np : List null_order) (lrc urc : result_column) :
    (lower_bound t values co np = .ok lrc →
       lrc.type = size_type ∧ lrc.nullable = false) ∧
    (upper_bound t values co np = .ok urc →
       urc.type = size_type ∧ urc.nullable = false) := by
  constructor
  · intro h
    obtain ⟨-, -, h3⟩ := lower_bound_ok_elim t values co np lrc h
    subst h3
    exact ⟨rfl, rfl⟩
  · intro h
    obtain ⟨-, -, h3⟩ := upper_bound_ok_elim t values co np urc h
    subst h3
    exact ⟨rfl, rfl⟩

/-- Witness for C10 at the single-column worked example, whose inputs are
INT32 columns. -/
theorem result_type_witness :
    lower_bound ex1_t ex1_v ex_order ex_np = .ok ⟨size_type, false, [1]⟩ ∧
    (⟨size_type, false, [1]⟩ : result_column).type = size_type ∧
    (⟨size_type, false, [1]⟩ : result_column).nullable = false :=
  ⟨rfl,
   ((result_type ex1_t ex1_v ex_order ex_np ⟨size_type, false, [1]⟩
       ⟨size_type, false, [3]⟩).1 rfl).1,
   ((result_type ex1_t ex1_v ex_order ex_np ⟨size_type, false, [1]⟩
       ⟨size_type, false, [3]⟩).1 rfl).2⟩

end cudf
